import Mathlib

/-!
Verification of the AgentLogs ACE search client (src/index.js).

This file gives a shallow embedding of the resilient retrieval client of the
repository: content sanitization, line-based segmentation, byte-bounded batch
construction, the retry executor, the upload client and the search driver.
Network effects are modelled by explicit oracles: the retry executor consumes a
per-attempt outcome oracle, while the upload/search layer consumes a
per-logical-request oracle standing for the composite of postAceJson and
safeReadJson.  Randomness (randomUUID) is modelled as a stream of strings
indexed by a monotone counter threaded through an explicit identifier state.
-/

namespace AgentLogs

/-- Configuration constant ACE_MAX_BATCH_BYTES from the source (1024 * 1024). -/
def ACE_MAX_BATCH_BYTES : Nat := 1024 * 1024

/-- Configuration constant ACE_RETRY_LIMIT from the source (3 total attempts). -/
def ACE_RETRY_LIMIT : Nat := 3

/-- Configuration constant ACE_RETRY_BASE_MS from the source (1000 ms base backoff). -/
def ACE_RETRY_BASE_MS : Nat := 1000

/-- Default of ACE_MAX_LINES_PER_BLOB (getPositiveInt of the env var, default 800). -/
def ACE_MAX_LINES_PER_BLOB_DEFAULT : Nat := 800

/-- A JavaScript Error value: its name and its message. -/
structure JsError where
  name : String
  message : String
deriving DecidableEq

/-- The parts of a fetch Response the executor inspects: the ok flag, the
status code, the Retry-After header (none when absent) and the body text. -/
structure HttpResponse where
  ok : Bool
  status : Nat
  retryAfter : Option String
  bodyText : String
deriving DecidableEq

/-- Outcome of one attempt of fetchWithTimeout: either a response, or a thrown
error (abort on timeout, network failure, and so on). -/
inductive AttemptResult where
  | resp (r : HttpResponse)
  | thrown (e : JsError)
deriving DecidableEq

/-- The module-level mutable state: the memoized aceSessionId variable and the
position in the randomUUID stream. -/
structure IdState where
  sessionId : Option String
  counter : Nat
deriving DecidableEq

/-- The identifying headers attached to one network attempt: its fresh
x-request-id and the process-wide x-request-session-id. -/
structure AttemptLog where
  requestId : String
  sessionId : String
deriving DecidableEq

instance {ε α : Type} [DecidableEq ε] [DecidableEq α] : DecidableEq (Except ε α) := fun x y =>
  match x, y with
  | .error a, .error b =>
    if h : a = b then isTrue (congrArg Except.error h)
    else isFalse (fun hh => h (Except.error.inj hh))
  | .ok a, .ok b =>
    if h : a = b then isTrue (congrArg Except.ok h)
    else isFalse (fun hh => h (Except.ok.inj hh))
  | .error _, .ok _ => isFalse (fun hh => Except.noConfusion hh)
  | .ok _, .error _ => isFalse (fun hh => Except.noConfusion hh)

/-- Result of running fetchWithRetry: the returned response or thrown error,
the number of attempts performed, the sleep durations requested (ms), the
headers of each attempt, and the identifier state afterwards. -/
structure FetchResult where
  result : Except JsError HttpResponse
  attempts : Nat
  waits : List Int
  logs : List AttemptLog
  finalState : IdState
deriving DecidableEq

/-- Model of crypto.randomUUID: draw the next value of the uuid stream. -/
def randomUUID (uuids : Nat → String) (st : IdState) : String × IdState :=
  (uuids st.counter, ⟨st.sessionId, st.counter + 1⟩)

/-- JavaScript falsiness of the aceSessionId variable: undefined or empty. -/
def jsFalsy : Option String → Bool
  | none => true
  | some s => s = ""

/-- getAceSessionId from the source: memoize a randomUUID in aceSessionId. -/
def getAceSessionId (uuids : Nat → String) (st : IdState) : String × IdState :=
  if jsFalsy st.sessionId then
    let p := randomUUID uuids st
    (p.1, ⟨some p.1, p.2.counter⟩)
  else
    (st.sessionId.getD "", st)

/-- Front match of a character pattern against a character list. -/
def chMatchFront : List Char → List Char → Bool
  | [], _ => true
  | _ :: _, [] => false
  | p :: ps, x :: xs => p == x && chMatchFront ps xs

/-- Occurrence of a character pattern anywhere in a character list. -/
def chOccurs (pat : List Char) : List Char → Bool
  | [] => chMatchFront pat []
  | x :: xs => chMatchFront pat (x :: xs) || chOccurs pat xs

/-- Model of String.prototype.includes for the fixed search string of the
source, message.includes of the word fetch. -/
def strContainsFetch (s : String) : Bool :=
  chOccurs [ 'f', 'e', 't', 'c', 'h' ] s.data

/-- JavaScript whitespace skipped by Number.parseInt. -/
def jsWhitespace (c : Char) : Bool :=
  c == ' ' || c == '\t' || c == '\n' || c == '\r' || c == '\x0b' || c == '\x0c'

/-- Decimal value of a digit prefix. -/
def digitsToNat (ds : List Char) : Nat :=
  ds.foldl (fun acc c => acc * 10 + (c.toNat - 48)) 0

/-- Digit-prefix part of Number.parseInt: none models NaN. -/
def jsParseIntDigits (t : List Char) (sign : Int) : Option Int :=
  let digs := t.takeWhile Char.isDigit
  if digs = [] then none else some (sign * (digitsToNat digs : Nat))

/-- Model of Number.parseInt(s, 10): skip whitespace, optional sign, longest
digit prefix; none models NaN (Number.isFinite then fails). -/
def jsParseInt (s : String) : Option Int :=
  match s.data.dropWhile jsWhitespace with
  | '-' :: t => jsParseIntDigits t (-1)
  | '+' :: t => jsParseIntDigits t 1
  | t => jsParseIntDigits t 1

/-- The error thrown for a fatal HTTP status, ACE API request failed with the
status code and the response body text interpolated. -/
def httpErrorOf (r : HttpResponse) : JsError :=
  ⟨"Error", "ACE API 请求失败 (" ++ toString r.status ++ "): " ++ r.bodyText⟩

/-- The backoff delay before a retry of a retryable failed response: the
Retry-After header in seconds times 1000 when parseable, else the exponential
default ACE_RETRY_BASE_MS * 2 ^ attempt. -/
def retryWaitMs (r : HttpResponse) (attempt : Nat) : Int :=
  match jsParseInt (r.retryAfter.getD "") with
  | some n => n * 1000
  | none => ((ACE_RETRY_BASE_MS * 2 ^ attempt : Nat) : Int)

/-- The default error thrown when the loop of fetchWithRetry exits without a
recorded error. -/
def fallbackFetchError : JsError := ⟨"Error", "ACE API 请求失败"⟩

/-- The loop body of fetchWithRetry.  The fuel argument counts the remaining
loop iterations (the caller passes ACE_RETRY_LIMIT - attempt); the attempt
index is the loop variable of the source.  Each iteration builds headers with
a fresh x-request-id, consults the per-attempt oracle, and either returns the
ok response, sleeps and retries a retryable outcome, or rethrows. -/
def fetchGo (oracle : Nat → AttemptResult) (uuids : Nat → String) (sess : String) :
    Nat → Nat → Option JsError → IdState → FetchResult
  | 0, _, lastError, st =>
    { result := .error (lastError.getD fallbackFetchError)
      attempts := 0, waits := [], logs := [], finalState := st }
  | fuel + 1, attempt, lastError, st =>
    let rid := uuids st.counter
    let st1 : IdState := ⟨st.sessionId, st.counter + 1⟩
    let log : AttemptLog := ⟨rid, sess⟩
    match oracle attempt with
    | .resp r =>
      if r.ok then
        { result := .ok r, attempts := 1, waits := [], logs := [log], finalState := st1 }
      else if (r.status = 429 ∨ 500 ≤ r.status) ∧ attempt < ACE_RETRY_LIMIT - 1 then
        let rest := fetchGo oracle uuids sess fuel (attempt + 1) lastError st1
        { result := rest.result, attempts := rest.attempts + 1
          waits := retryWaitMs r attempt :: rest.waits
          logs := log :: rest.logs, finalState := rest.finalState }
      else
        let e := httpErrorOf r
        if (e.name = "AbortError" ∨ strContainsFetch e.message = true) ∧
            attempt < ACE_RETRY_LIMIT - 1 then
          let rest := fetchGo oracle uuids sess fuel (attempt + 1) (some e) st1
          { result := rest.result, attempts := rest.attempts + 1
            waits := ((ACE_RETRY_BASE_MS * 2 ^ attempt : Nat) : Int) :: rest.waits
            logs := log :: rest.logs, finalState := rest.finalState }
        else
          { result := .error e, attempts := 1, waits := [], logs := [log], finalState := st1 }
    | .thrown e =>
      if (e.name = "AbortError" ∨ strContainsFetch e.message = true) ∧
          attempt < ACE_RETRY_LIMIT - 1 then
        let rest := fetchGo oracle uuids sess fuel (attempt + 1) (some e) st1
        { result := rest.result, attempts := rest.attempts + 1
          waits := ((ACE_RETRY_BASE_MS * 2 ^ attempt : Nat) : Int) :: rest.waits
          logs := log :: rest.logs, finalState := rest.finalState }
      else
        { result := .error e, attempts := 1, waits := [], logs := [log], finalState := st1 }

/-- fetchWithRetry from the source: run the loop from attempt 0 with no
recorded error and ACE_RETRY_LIMIT iterations available. -/
def fetchWithRetry (oracle : Nat → AttemptResult) (uuids : Nat → String)
    (sess : String) (st : IdState) : FetchResult :=
  fetchGo oracle uuids sess ACE_RETRY_LIMIT 0 none st

/-- postAceJson from the source, restricted to the identifying headers: read
the memoized session identifier and run fetchWithRetry. -/
def postAceJson (oracle : Nat → AttemptResult) (uuids : Nat → String)
    (st : IdState) : FetchResult :=
  let p := getAceSessionId uuids st
  fetchWithRetry oracle uuids p.1 p.2

/-- A sequence of logical calls through postAceJson in one process, each with
its own per-attempt oracle, threading the identifier state. -/
def runCalls (uuids : Nat → String) : List (Nat → AttemptResult) → IdState → List FetchResult
  | [], _ => []
  | oracle :: rest, st =>
    let fr := postAceJson oracle uuids st
    fr :: runCalls uuids rest fr.finalState

/-- A content block, the blob shape of the source: a path and a content. -/
structure Blob where
  path : String
  content : String
deriving DecidableEq

/-- The size the batch builder charges a blob: content length plus path length. -/
def blobSize (b : Blob) : Nat :=
  b.content.length + b.path.length

/-- Combined size of a batch of blobs. -/
def batchSize (batch : List Blob) : Nat :=
  (batch.map blobSize).sum

/-- The loop of buildBlobBatches from the source: current is the running
batch, currentSize its accumulated size. -/
def buildBatchesGo (threshold : Nat) : List Blob → List Blob → Nat → List (List Blob)
  | [], current, _ =>
    if 0 < current.length then [ current ] else []
  | blob :: rest, current, currentSize =>
    if 0 < current.length ∧ threshold < currentSize + blobSize blob then
      current :: buildBatchesGo threshold rest [ blob ] (blobSize blob)
    else
      buildBatchesGo threshold rest (current ++ [ blob ]) (currentSize + blobSize blob)

/-- buildBlobBatches from the source, at the fixed ACE_MAX_BATCH_BYTES bound. -/
def buildBlobBatches (blobs : List Blob) : List (List Blob) :=
  buildBatchesGo ACE_MAX_BATCH_BYTES blobs [] 0

/-- Modelled from the spec wording of section 4.2, for comparison with the
source: greedy first-fit bin-packing in input order, closing the running batch
when it is non-empty and adding the block would exceed the byte threshold. -/
def specFirstFitGo (threshold : Nat) : List Blob → List Blob → List (List Blob)
  | [], current =>
    if current = [] then [] else [ current ]
  | blob :: rest, current =>
    if current ≠ [] ∧ threshold < batchSize current + blobSize blob then
      current :: specFirstFitGo threshold rest [ blob ]
    else
      specFirstFitGo threshold rest (current ++ [ blob ])

/-- First-fit packing in input order, as the spec words it. -/
def specFirstFitPack (threshold : Nat) (blobs : List Blob) : List (List Blob) :=
  specFirstFitGo threshold blobs []

/-- The character class removed by sanitizeAceContent, the regex class
x00-x08, x0B, x0C, x0E-x1F, x7F of the source. -/
def aceControlClass (c : Char) : Bool :=
  decide (c.toNat ≤ 8 ∨ c.toNat = 11 ∨ c.toNat = 12 ∨
    (14 ≤ c.toNat ∧ c.toNat ≤ 31) ∨ c.toNat = 127)

/-- sanitizeAceContent from the source: delete every character of the control
class, keep everything else in place. -/
def sanitizeAceContent (s : String) : String :=
  String.mk (s.data.filter (fun c => !aceControlClass c))

/-- The removal predicate exactly as the claim words it: every non-printable
control character (the ASCII control codes and DEL) except newline and tab. -/
def claimSanitizeRemoves (c : Char) : Bool :=
  decide ((c.toNat ≤ 31 ∨ c.toNat = 127) ∧ c.toNat ≠ 10 ∧ c.toNat ≠ 9)

/-- The sanitization behaviour the claim describes, for comparison with the
source function. -/
def claimSanitizeAceContent (s : String) : String :=
  String.mk (s.data.filter (fun c => !claimSanitizeRemoves c))

/-- Split a character list at every newline, the model of the JavaScript
String.prototype.split with separator newline: the empty text yields one empty
piece. -/
def splitLinesCh : List Char → List (List Char)
  | [] => [ [] ]
  | c :: cs =>
    if c = '\n' then [] :: splitLinesCh cs
    else
      match splitLinesCh cs with
      | [] => [ [ c ] ]
      | l :: ls => (c :: l) :: ls

/-- Join character lists with newline separators, the model of
Array.prototype.join with separator newline. -/
def joinNlCh : List (List Char) → List Char
  | [] => []
  | [ l ] => l
  | l :: l2 :: ls => l ++ '\n' :: joinNlCh (l2 :: ls)

/-- String-level split on newline. -/
def jsSplitNl (s : String) : List String :=
  (splitLinesCh s.data).map String.mk

/-- String-level join with newline. -/
def jsJoinNl (ls : List String) : String :=
  String.mk (joinNlCh (ls.map String.data))

/-- splitLogContent from the source: one unchanged block when the line count
is within the limit, else ceil(lineCount / maxLines) contiguous slices of
maxLines lines, named path#chunk{i}of{n} with 1-based i. -/
def splitLogContent (maxLines : Nat) (fileName content : String) : List Blob :=
  let lines := jsSplitNl content
  if lines.length ≤ maxLines then
    [ ⟨fileName, content⟩ ]
  else
    let totalChunks := (lines.length + maxLines - 1) / maxLines
    (List.range totalChunks).map fun i =>
      let start := i * maxLines
      let stop := min (start + maxLines) lines.length
      ⟨fileName ++ "#chunk" ++ toString (i + 1) ++ "of" ++ toString totalChunks,
        jsJoinNl ((lines.drop start).take (stop - start))⟩

/-- The parsed JSON body fields the client reads: blob_names (none when the
field is missing or not an array) and formatted_retrieval. -/
structure AceJson where
  blob_names : Option (List String)
  formatted_retrieval : Option String
deriving DecidableEq

/-- A logical request made by the search: a batch upload or the one codebase
lookup request referencing the pooled blob names. -/
inductive AceRequest where
  | upload (blobs : List Blob)
  | lookup (query : String) (addedBlobs : List String)
deriving DecidableEq

/-- The error thrown by uploadBlobs when blob_names is missing or empty. -/
def protocolError : JsError :=
  ⟨"Error", "ACE 返回的 blob_names 为空，无法继续搜索"⟩

/-- The loop of uploadBlobs over the batches: one request per batch, in order,
pooling the returned blob_names; a missing, non-array or empty blob_names
field raises protocolError at once.  The oracle svc stands for the composite
of postAceJson and safeReadJson for one logical request.  The second component
is the trace of requests issued. -/
def uploadBatchesGo (svc : AceRequest → Except JsError AceJson) :
    List (List Blob) → List String → Except JsError (List String) × List AceRequest
  | [], acc => (.ok acc, [])
  | batch :: rest, acc =>
    let req := AceRequest.upload batch
    match svc req with
    | .error e => (.error e, [ req ])
    | .ok json =>
      match json.blob_names with
      | none => (.error protocolError, [ req ])
      | some names =>
        if names.length = 0 then (.error protocolError, [ req ])
        else
          let p := uploadBatchesGo svc rest (acc ++ names)
          (p.1, req :: p.2)

/-- uploadBlobs from the source: empty input short-circuits to an empty pool
without any request, else the batches are uploaded sequentially. -/
def uploadBlobs (svc : AceRequest → Except JsError AceJson) (blobs : List Blob) :
    Except JsError (List String) × List AceRequest :=
  if blobs.length = 0 then (.ok [], [])
  else uploadBatchesGo svc (buildBlobBatches blobs) []

/-- The outcome of searchLogsWithAce: the query echoed and the results text. -/
structure SearchOutcome where
  query : String
  results : String
deriving DecidableEq

/-- The fixed empty-directory message of searchLogsWithAce. -/
def emptyDirMsg : String := "日志目录为空，没有可搜索的内容。"

/-- The fixed upload-failure placeholder of searchLogsWithAce. -/
def uploadFailedMsg : String := "日志内容上传失败，无法执行搜索。"

/-- The fixed no-results placeholder of searchLogsWithAce. -/
def noResultsMsg : String := "未找到相关内容。"

/-- A run of searchLogsWithAce: its outcome, the requests issued, and an
instrumentation flag recording whether the upload-failure fallback branch
(blobNames.length equal zero after a normal uploadBlobs return) executed. -/
structure SearchRun where
  outcome : Except JsError SearchOutcome
  trace : List AceRequest
  usedUploadFailedFallback : Bool
deriving DecidableEq

/-- searchLogsWithAce from the source, over the collected corpus blobs: an
empty corpus returns the fixed message with no request; else the blobs are
uploaded, the pooled names guard the fallback branch, and one lookup request
is issued whose formatted_retrieval field (trimmed) is returned, with the
no-results placeholder when it is absent or blank. -/
def searchLogsWithAce (svc : AceRequest → Except JsError AceJson)
    (query : String) (blobs : List Blob) : SearchRun :=
  if blobs.length = 0 then
    ⟨.ok ⟨query, emptyDirMsg⟩, [], false⟩
  else
    let up := uploadBlobs svc blobs
    match up.1 with
    | .error e => ⟨.error e, up.2, false⟩
    | .ok blobNames =>
      if blobNames.length = 0 then
        ⟨.ok ⟨query, uploadFailedMsg⟩, up.2, true⟩
      else
        let req := AceRequest.lookup query blobNames
        match svc req with
        | .error e => ⟨.error e, up.2 ++ [ req ], false⟩
        | .ok json =>
          let formatted := (json.formatted_retrieval.getD "").trim
          ⟨.ok ⟨query, if formatted = "" then noResultsMsg else formatted⟩,
            up.2 ++ [ req ], false⟩

/-- Witness uuid stream: index i yields i+1 repetitions of the letter a. -/
def uuidsW (i : Nat) : String :=
  String.mk (List.replicate (i + 1) 'a')

/-- Initial identifier state of a fresh process. -/
def idState0 : IdState := ⟨none, 0⟩

/-- Witness oracle: the service answers HTTP 500 on every attempt. -/
def oracle500 (_ : Nat) : AttemptResult :=
  .resp ⟨false, 500, none, "boom"⟩

/-- Counterexample oracle: HTTP 404 whose body text contains the word fetch. -/
def oracle404fetch (_ : Nat) : AttemptResult :=
  .resp ⟨false, 404, none, "Could not fetch resource"⟩

/-- Witness oracle: HTTP 429 carrying Retry-After two seconds. -/
def oracle429RetryAfter2 (_ : Nat) : AttemptResult :=
  .resp ⟨false, 429, some "2", "slow down"⟩

/-- Witness oracle: HTTP 500 with no Retry-After header. -/
def oracle500NoHeader (_ : Nat) : AttemptResult :=
  .resp ⟨false, 500, none, "oops"⟩

/-- Witness oracle: HTTP 404 with a plain body. -/
def oracle404plain (_ : Nat) : AttemptResult :=
  .resp ⟨false, 404, none, "not found"⟩

/-- Witness oracle: immediate success. -/
def oracleOk (_ : Nat) : AttemptResult :=
  .resp ⟨true, 200, none, "fine"⟩

/-- Witness service: every upload yields the empty blob_names array. -/
def svcEmptyNames (_ : AceRequest) : Except JsError AceJson :=
  .ok ⟨some [], none⟩

/-- Witness service: every request yields one blob name and no results text. -/
def svcOneName (_ : AceRequest) : Except JsError AceJson :=
  .ok ⟨some [ "blobA" ], none⟩

/-- Witness blob. -/
def blobW : Blob := ⟨"0001-test.md", "# test"⟩

end AgentLogs

namespace AgentLogs

/-! Helper lemmas about substring occurrence and decimal rendering, used to
settle the catch-classification of the retry executor. -/

theorem chOccurs_append (c : Char) (pat ys : List Char) (xs : List Char) (h : c ∉ xs) :
    chOccurs (c :: pat) (xs ++ ys) = chOccurs (c :: pat) ys := by
  induction xs with
  | nil => rfl
  | cons x xs ih =>
    have hcx : (c == x) = false := beq_eq_false_iff_ne.mpr (fun hh => h (by simp [hh]))
    have hxs : c ∉ xs := fun hm => h (List.mem_cons_of_mem x hm)
    simp only [List.cons_append, chOccurs, chMatchFront, hcx, Bool.false_and, Bool.false_or]
    exact ih hxs

theorem digitChar_ne_f {m : Nat} (hm : m < 10) : Nat.digitChar m ≠ 'f' := by
  interval_cases m <;> decide

theorem toDigitsCore_ne_f : ∀ (fuel n : Nat) (ds : List Char), 'f' ∉ ds →
    'f' ∉ Nat.toDigitsCore 10 fuel n ds := by
  intro fuel
  induction fuel with
  | zero => intro n ds h; simpa [Nat.toDigitsCore] using h
  | succ f ih =>
    intro n ds h
    have hd : Nat.digitChar (n % 10) ≠ 'f' := digitChar_ne_f (Nat.mod_lt n (by decide))
    have hds : 'f' ∉ Nat.digitChar (n % 10) :: ds := by
      intro hm
      rcases List.mem_cons.mp hm with hm | hm
      · exact hd hm.symm
      · exact h hm
    simp only [Nat.toDigitsCore]
    split
    · exact hds
    · exact ih _ _ hds

theorem natRepr_ne_f (n : Nat) : 'f' ∉ (toString n).data := by
  show 'f' ∉ (Nat.toDigits 10 n).asString.data
  show 'f' ∉ Nat.toDigits 10 n
  exact toDigitsCore_ne_f (n + 1) n [] (by simp)

theorem strContainsFetch_append (a b : String) (ha : 'f' ∉ a.data) :
    strContainsFetch (a ++ b) = strContainsFetch b := by
  simp only [strContainsFetch, String.data_append]
  exact chOccurs_append _ _ _ _ ha

theorem strContainsFetch_httpErrorOf (r : HttpResponse) :
    strContainsFetch (httpErrorOf r).message = strContainsFetch r.bodyText := by
  show strContainsFetch ("ACE API 请求失败 (" ++ toString r.status ++ "): " ++ r.bodyText) = _
  apply strContainsFetch_append
  intro hm
  simp only [String.data_append, List.mem_append] at hm
  rcases hm with (hm | hm) | hm
  · revert hm; decide
  · exact natRepr_ne_f r.status hm
  · revert hm; decide

/-! The retry executor on an all-retryable oracle. -/

theorem fetchGo_allRetryable (oracle : Nat → AttemptResult) (uuids : Nat → String)
    (sess : String) (r : Nat → HttpResponse) :
    ∀ (fuel attempt : Nat) (lastError : Option JsError) (st : IdState),
      fuel + attempt = ACE_RETRY_LIMIT → 0 < fuel →
      (∀ i, attempt ≤ i → i < ACE_RETRY_LIMIT →
        oracle i = .resp (r i) ∧ (r i).ok = false ∧
        ((r i).status = 429 ∨ 500 ≤ (r i).status)) →
      (fetchGo oracle uuids sess fuel attempt lastError st).attempts = fuel ∧
      (fetchGo oracle uuids sess fuel attempt lastError st).result =
        .error (httpErrorOf (r (ACE_RETRY_LIMIT - 1))) ∧
      (fetchGo oracle uuids sess fuel attempt lastError st).waits =
        (List.range' attempt (fuel - 1)).map (fun i => retryWaitMs (r i) i) := by
  have hL : ACE_RETRY_LIMIT = 3 := rfl
  intro fuel
  induction fuel with
  | zero => intro attempt lastError st hfa hfuel h; omega
  | succ f ih =>
    intro attempt lastError st hfa hfuel h
    obtain ⟨ho, hok, hst⟩ := h attempt (le_refl _) (by omega)
    rcases Nat.eq_zero_or_pos f with hf | hf
    · subst hf
      have ha2 : attempt = 2 := by omega
      subst ha2
      have hlt : ¬ (2 < ACE_RETRY_LIMIT - 1) := by decide
      simp only [fetchGo, ho, hok, Bool.false_eq_true, if_false]
      rw [if_neg (fun hc => hlt hc.2), if_neg (fun hc => hlt hc.2)]
      exact ⟨rfl, rfl, rfl⟩
    · have hlt : attempt < ACE_RETRY_LIMIT - 1 := by omega
      obtain ⟨iha, ihr, ihw⟩ := ih (attempt + 1) lastError ⟨st.sessionId, st.counter + 1⟩
        (by omega) hf (fun i hi1 hi2 => h i (by omega) hi2)
      simp only [fetchGo, ho, hok, Bool.false_eq_true, if_false]
      rw [if_pos ⟨hst, hlt⟩]
      refine ⟨?_, ?_, ?_⟩
      · show (fetchGo oracle uuids sess f (attempt + 1) lastError
          ⟨st.sessionId, st.counter + 1⟩).attempts + 1 = f + 1
        rw [iha]
      · exact ihr
      · show retryWaitMs (r attempt) attempt :: (fetchGo oracle uuids sess f (attempt + 1)
            lastError ⟨st.sessionId, st.counter + 1⟩).waits =
          (List.range' attempt (f + 1 - 1)).map (fun i => retryWaitMs (r i) i)
        rw [ihw]
        have hf1 : f + 1 - 1 = (f - 1) + 1 := by omega
        rw [hf1, List.range'_succ]
        simp

/-- C1: when the service returns a retryable outcome (HTTP 500, or any
429/5xx) on every attempt, fetchWithRetry performs exactly 3 total attempts
and then propagates the last observed error to the caller, never an ok
result. -/
theorem C1_retry_exhaustion (oracle : Nat → AttemptResult) (uuids : Nat → String)
    (sess : String) (st : IdState) (r : Nat → HttpResponse)
    (h : ∀ i, i < ACE_RETRY_LIMIT → oracle i = .resp (r i) ∧ (r i).ok = false ∧
      ((r i).status = 429 ∨ 500 ≤ (r i).status)) :
    (fetchWithRetry oracle uuids sess st).attempts = 3 ∧
    (fetchWithRetry oracle uuids sess st).result = .error (httpErrorOf (r 2)) := by
  have hmain := fetchGo_allRetryable oracle uuids sess r ACE_RETRY_LIMIT 0 none st rfl
    (by decide) (fun i _ hi => h i hi)
  exact ⟨hmain.1, hmain.2.1⟩

theorem C1_retry_exhaustion_witness :
    (∀ i, i < ACE_RETRY_LIMIT → oracle500 i = .resp ⟨false, 500, none, "boom"⟩ ∧
      ((⟨false, 500, none, "boom"⟩ : HttpResponse)).ok = false ∧
      (((⟨false, 500, none, "boom"⟩ : HttpResponse)).status = 429 ∨
        500 ≤ ((⟨false, 500, none, "boom"⟩ : HttpResponse)).status)) ∧
    (fetchWithRetry oracle500 uuidsW "sess" idState0).attempts = 3 ∧
    (fetchWithRetry oracle500 uuidsW "sess" idState0).result =
      .error (httpErrorOf ⟨false, 500, none, "boom"⟩) :=
  ⟨fun _ _ => ⟨rfl, rfl, by decide⟩,
    C1_retry_exhaustion oracle500 uuidsW "sess" idState0 (fun _ => ⟨false, 500, none, "boom"⟩)
      (fun _ _ => ⟨rfl, rfl, Or.inr (Nat.le_refl 500)⟩)⟩

/-- C2: when a retryable failed response (HTTP 429 or 5xx, with a retry
attempt remaining) carries a Retry-After header parseable as an integer n,
the executor sleeps n * 1000 milliseconds before the next attempt; when the
header is absent or not parseable as an integer it sleeps the exponential
default ACE_RETRY_BASE_MS * 2 ^ attempt. -/
theorem C2_retryAfter_honored (oracle : Nat → AttemptResult) (uuids : Nat → String)
    (sess : String) (attempt : Nat) (lastError : Option JsError) (st : IdState)
    (r : HttpResponse) (hatt : attempt < ACE_RETRY_LIMIT - 1)
    (ho : oracle attempt = .resp r) (hok : r.ok = false)
    (hst : r.status = 429 ∨ 500 ≤ r.status) :
    (∀ n : Int, jsParseInt (r.retryAfter.getD "") = some n →
      (fetchGo oracle uuids sess (ACE_RETRY_LIMIT - attempt) attempt lastError st).waits.head? =
        some (n * 1000)) ∧
    (jsParseInt (r.retryAfter.getD "") = none →
      (fetchGo oracle uuids sess (ACE_RETRY_LIMIT - attempt) attempt lastError st).waits.head? =
        some ((ACE_RETRY_BASE_MS * 2 ^ attempt : Nat) : Int)) := by
  have hL : ACE_RETRY_LIMIT = 3 := rfl
  have hfuel : ACE_RETRY_LIMIT - attempt = (ACE_RETRY_LIMIT - attempt - 1) + 1 := by omega
  rw [hfuel]
  simp only [fetchGo, ho, hok, Bool.false_eq_true, if_false]
  rw [if_pos ⟨hst, hatt⟩]
  constructor
  · intro n hn
    show (retryWaitMs r attempt :: _).head? = some (n * 1000)
    simp [retryWaitMs, hn]
  · intro hn
    show (retryWaitMs r attempt :: _).head? = some _
    simp [retryWaitMs, hn]

theorem C2_retryAfter_honored_witness :
    ((0 < ACE_RETRY_LIMIT - 1 ∧ oracle429RetryAfter2 0 = .resp ⟨false, 429, some "2", "slow down"⟩ ∧
        jsParseInt "2" = some 2) ∧
      (fetchGo oracle429RetryAfter2 uuidsW "sess" (ACE_RETRY_LIMIT - 0) 0 none
        idState0).waits.head? = some (2 * 1000)) ∧
    ((oracle500NoHeader 0 = .resp ⟨false, 500, none, "oops"⟩ ∧ jsParseInt "" = none) ∧
      (fetchGo oracle500NoHeader uuidsW "sess" (ACE_RETRY_LIMIT - 0) 0 none
        idState0).waits.head? = some ((ACE_RETRY_BASE_MS * 2 ^ 0 : Nat) : Int)) :=
  ⟨⟨⟨by decide, rfl, by decide⟩,
      (C2_retryAfter_honored oracle429RetryAfter2 uuidsW "sess" 0 none idState0
        ⟨false, 429, some "2", "slow down"⟩ (by decide) rfl rfl (Or.inl rfl)).1 2 (by decide)⟩,
    ⟨⟨rfl, by decide⟩,
      (C2_retryAfter_honored oracle500NoHeader uuidsW "sess" 0 none idState0
        ⟨false, 500, none, "oops"⟩ (by decide) rfl rfl (Or.inr (Nat.le_refl 500))).2 (by decide)⟩⟩

/-- C3 counterexample: a simulated HTTP 404 whose body text contains the word
fetch is retried (3 attempts with backoff waits), refuting that every
response with a status other than 2xx, 429 and 5xx causes exactly 1 attempt
with no backoff wait for every response body text. -/
theorem C3_counterexample :
    (fetchWithRetry oracle404fetch uuidsW "sess" idState0).attempts = 3 ∧
    (fetchWithRetry oracle404fetch uuidsW "sess" idState0).waits =
      [ (1000 : Int), 2000 ] := by
  decide

/-- C3 (amended): for every response whose status is neither ok nor 429 nor
5xx, and whose body text does not contain the substring fetch, the executor
makes exactly 1 attempt, performs no backoff wait, and surfaces the fatal
error to the caller immediately. -/
theorem C3_fatal_single_attempt (oracle : Nat → AttemptResult) (uuids : Nat → String)
    (sess : String) (st : IdState) (r : HttpResponse)
    (ho : oracle 0 = .resp r) (hok : r.ok = false)
    (h429 : r.status ≠ 429) (h5xx : r.status < 500)
    (hbody : strContainsFetch r.bodyText = false) :
    fetchWithRetry oracle uuids sess st =
      { result := .error (httpErrorOf r), attempts := 1, waits := []
        logs := [ ⟨uuids st.counter, sess⟩ ]
        finalState := ⟨st.sessionId, st.counter + 1⟩ } := by
  have h3 : fetchWithRetry oracle uuids sess st = fetchGo oracle uuids sess (2 + 1) 0 none st :=
    rfl
  rw [h3]
  simp only [fetchGo, ho, hok, Bool.false_eq_true, if_false]
  rw [if_neg (fun hc => by rcases hc.1 with hs | hs; exact h429 hs; omega)]
  have hcatch : ¬ (((httpErrorOf r).name = "AbortError" ∨
      strContainsFetch (httpErrorOf r).message = true) ∧ 0 < ACE_RETRY_LIMIT - 1) := by
    intro hc
    rcases hc.1 with hn | hn
    · have hname : (httpErrorOf r).name = "Error" := rfl
      rw [hname] at hn
      exact absurd hn (by decide)
    · rw [strContainsFetch_httpErrorOf, hbody] at hn
      exact Bool.false_ne_true hn
  rw [if_neg hcatch]

theorem C3_fatal_single_attempt_witness :
    (oracle404plain 0 = .resp ⟨false, 404, none, "not found"⟩ ∧
      strContainsFetch "not found" = false) ∧
    fetchWithRetry oracle404plain uuidsW "sess" idState0 =
      { result := .error (httpErrorOf ⟨false, 404, none, "not found"⟩), attempts := 1
        waits := [], logs := [ ⟨uuidsW 0, "sess"⟩ ], finalState := ⟨none, 1⟩ } :=
  ⟨⟨rfl, by decide⟩,
    C3_fatal_single_attempt oracle404plain uuidsW "sess" idState0
      ⟨false, 404, none, "not found"⟩ rfl rfl (by decide) (by decide) (by decide)⟩

/-! Sanitization. -/

theorem aceControlClass_eq (c : Char) :
    aceControlClass c =
      decide ((c.toNat ≤ 31 ∨ c.toNat = 127) ∧ c.toNat ≠ 9 ∧ c.toNat ≠ 10 ∧ c.toNat ≠ 13) := by
  simp only [aceControlClass, decide_eq_decide]
  omega

/-- C8 counterexample: the carriage return character is a non-printable
control character other than newline and tab, yet sanitizeAceContent keeps
it, while the removal the claim words out would delete it. -/
theorem C8_counterexample :
    sanitizeAceContent "\r" = "\r" ∧ claimSanitizeAceContent "\r" = "" ∧
    sanitizeAceContent "\r" ≠ claimSanitizeAceContent "\r" := by
  decide

/-- C8 (amended): sanitizeAceContent removes exactly the ASCII control
characters (codes up to 31, and DEL 127) other than tab, newline and
carriage return, and leaves every other character unchanged in place. -/
theorem C8_sanitize_amended (s : String) :
    sanitizeAceContent s = String.mk (s.data.filter
      (fun c => !decide ((c.toNat ≤ 31 ∨ c.toNat = 127) ∧
        c.toNat ≠ 9 ∧ c.toNat ≠ 10 ∧ c.toNat ≠ 13))) := by
  unfold sanitizeAceContent
  congr 1
  apply List.filter_congr
  intro c _
  rw [aceControlClass_eq]

/-! Batch construction. -/

theorem buildBatchesGo_flatten (T : Nat) :
    ∀ (blobs current : List Blob) (sz : Nat),
      (buildBatchesGo T blobs current sz).flatten = current ++ blobs := by
  intro blobs
  induction blobs with
  | nil =>
    intro current sz
    by_cases h : 0 < current.length
    · simp [buildBatchesGo, h]
    · have hc : current = [] := List.length_eq_zero.mp (by omega)
      subst hc
      simp [buildBatchesGo]
  | cons b rest ih =>
    intro current sz
    simp only [buildBatchesGo]
    split
    · simp [ih]
    · simp [ih]

theorem buildBatchesGo_ne_nil (T : Nat) :
    ∀ (blobs current : List Blob) (sz : Nat) (batch : List Blob),
      batch ∈ buildBatchesGo T blobs current sz → batch ≠ [] := by
  intro blobs
  induction blobs with
  | nil =>
    intro current sz batch hm
    by_cases h : 0 < current.length
    · simp only [buildBatchesGo, if_pos h, List.mem_singleton] at hm
      subst hm
      exact fun hb => by rw [hb] at h; simp at h
    · simp [buildBatchesGo, h] at hm
  | cons b rest ih =>
    intro current sz batch hm
    simp only [buildBatchesGo] at hm
    split at hm
    · rename_i hcond
      rcases List.mem_cons.mp hm with hb | hb
      · subst hb
        exact fun hb => by rw [hb] at hcond; simp at hcond
      · exact ih _ _ _ hb
    · exact ih _ _ _ hm

theorem buildBatchesGo_size (T : Nat) :
    ∀ (blobs current : List Blob) (sz : Nat), sz = batchSize current →
      (batchSize current ≤ T ∨ ∃ b, current = [ b ] ∧ T < blobSize b) →
      ∀ batch ∈ buildBatchesGo T blobs current sz,
        batchSize batch ≤ T ∨ ∃ b, batch = [ b ] ∧ T < blobSize b := by
  intro blobs
  induction blobs with
  | nil =>
    intro current sz hsz hinv batch hm
    by_cases h : 0 < current.length
    · simp only [buildBatchesGo, if_pos h, List.mem_singleton] at hm
      subst hm
      exact hinv
    · simp [buildBatchesGo, h] at hm
  | cons b rest ih =>
    intro current sz hsz hinv batch hm
    simp only [buildBatchesGo] at hm
    split at hm
    · rename_i hcond
      rcases List.mem_cons.mp hm with hb | hb
      · subst hb
        exact hinv
      · refine ih [ b ] (blobSize b) (by simp [batchSize]) ?_ batch hb
        rcases le_or_lt (blobSize b) T with hle | hgt
        · exact Or.inl (by simpa [batchSize] using hle)
        · exact Or.inr ⟨b, rfl, hgt⟩
    · rename_i hcond
      push_neg at hcond
      refine ih (current ++ [ b ]) (sz + blobSize b)
        (by simp [batchSize, hsz, List.sum_append]) ?_ batch hm
      by_cases hc : current = []
      · subst hc
        rcases le_or_lt (blobSize b) T with hle | hgt
        · exact Or.inl (by simpa [batchSize] using hle)
        · exact Or.inr ⟨b, rfl, hgt⟩
      · have hlen : 0 < current.length := List.length_pos.mpr hc
        have hle : sz + blobSize b ≤ T := hcond hlen
        exact Or.inl (by
          simp only [batchSize, List.map_append, List.sum_append, List.map_cons, List.map_nil,
            List.sum_cons, List.sum_nil] at hsz ⊢
          omega)

theorem buildBatchesGo_eq_spec (T : Nat) :
    ∀ (blobs current : List Blob) (sz : Nat), sz = batchSize current →
      buildBatchesGo T blobs current sz = specFirstFitGo T blobs current := by
  intro blobs
  induction blobs with
  | nil =>
    intro current sz hsz
    simp only [buildBatchesGo, specFirstFitGo]
    by_cases h : current = []
    · subst h; simp
    · simp [h, List.length_pos.mpr h]
  | cons b rest ih =>
    intro current sz hsz
    simp only [buildBatchesGo, specFirstFitGo]
    by_cases h : current = []
    · subst h
      simp only [List.length_nil, lt_irrefl, false_and, if_false, ne_eq, not_true_eq_false,
        List.nil_append]
      have hsz0 : sz = 0 := by simpa [batchSize] using hsz
      subst hsz0
      exact ih [ b ] (0 + blobSize b) (by simp [batchSize])
    · have hlen : 0 < current.length := List.length_pos.mpr h
      by_cases hgt : T < batchSize current + blobSize b
      · rw [if_pos ⟨hlen, by omega⟩, if_pos ⟨h, hgt⟩]
        rw [ih [ b ] (blobSize b) (by simp [batchSize])]
      · rw [if_neg (fun hc => hgt (by omega)), if_neg (fun hc => hgt hc.2)]
        exact ih (current ++ [ b ]) (sz + blobSize b) (by simp [batchSize, hsz, List.sum_append])

/-- C5: every batch of buildBlobBatches has combined size at most
ACE_MAX_BATCH_BYTES except a singleton batch whose one blob alone exceeds the
threshold; no batch is empty; concatenating the batches in order yields
exactly the input sequence; and the batch list coincides in count with
first-fit packing in input order. -/
theorem C5_batch_invariants (blobs : List Blob) :
    (∀ batch ∈ buildBlobBatches blobs,
      batchSize batch ≤ ACE_MAX_BATCH_BYTES ∨
        ∃ b, batch = [ b ] ∧ ACE_MAX_BATCH_BYTES < blobSize b) ∧
    (∀ batch ∈ buildBlobBatches blobs, batch ≠ []) ∧
    (buildBlobBatches blobs).flatten = blobs ∧
    (buildBlobBatches blobs).length = (specFirstFitPack ACE_MAX_BATCH_BYTES blobs).length := by
  refine ⟨?_, ?_, ?_, ?_⟩
  · exact buildBatchesGo_size ACE_MAX_BATCH_BYTES blobs [] 0 rfl (Or.inl (by simp [batchSize]))
  · exact fun batch hm => buildBatchesGo_ne_nil ACE_MAX_BATCH_BYTES blobs [] 0 batch hm
  · simpa using buildBatchesGo_flatten ACE_MAX_BATCH_BYTES blobs [] 0
  · rw [show buildBlobBatches blobs = specFirstFitPack ACE_MAX_BATCH_BYTES blobs from
      buildBatchesGo_eq_spec ACE_MAX_BATCH_BYTES blobs [] 0 rfl]

/-! Line splitting and joining. -/

theorem splitLinesCh_ne_nil (cs : List Char) : splitLinesCh cs ≠ [] := by
  induction cs with
  | nil => simp [splitLinesCh]
  | cons c cs ih =>
    simp only [splitLinesCh]
    split
    · simp
    · split <;> simp

theorem joinNlCh_cons (x : List Char) (xs : List (List Char)) (h : xs ≠ []) :
    joinNlCh (x :: xs) = x ++ '\n' :: joinNlCh xs := by
  cases xs with
  | nil => exact absurd rfl h
  | cons y ys => rfl

theorem joinNlCh_splitLinesCh (cs : List Char) : joinNlCh (splitLinesCh cs) = cs := by
  induction cs with
  | nil => rfl
  | cons c cs ih =>
    simp only [splitLinesCh]
    by_cases hc : c = '\n'
    · rw [if_pos hc, joinNlCh_cons _ _ (splitLinesCh_ne_nil cs), ih, hc]
      rfl
    · rw [if_neg hc]
      rcases hsp : splitLinesCh cs with _ | ⟨l, ls⟩
      · exact absurd hsp (splitLinesCh_ne_nil cs)
      · rw [hsp] at ih
        cases ls with
        | nil =>
          show c :: l = c :: cs
          rw [show joinNlCh [ l ] = l from rfl] at ih
          rw [ih]
        | cons l2 ls2 =>
          show (c :: l) ++ '\n' :: joinNlCh (l2 :: ls2) = c :: cs
          rw [← ih]
          rfl

theorem joinNlCh_append (a b : List (List Char)) (ha : a ≠ []) (hb : b ≠ []) :
    joinNlCh (a ++ b) = joinNlCh a ++ '\n' :: joinNlCh b := by
  induction a with
  | nil => exact absurd rfl ha
  | cons x xs ih =>
    cases xs with
    | nil =>
      rw [List.singleton_append, joinNlCh_cons x b hb]
      rfl
    | cons y ys =>
      have hxs : (y :: ys : List (List Char)) ≠ [] := by simp
      have happ : (y :: ys : List (List Char)) ++ b ≠ [] := by simp
      rw [List.cons_append, joinNlCh_cons x ((y :: ys) ++ b) happ, ih hxs,
        joinNlCh_cons x (y :: ys) hxs]
      simp

theorem joinNlCh_chunks (m : Nat) (hm : 0 < m) :
    ∀ (n : Nat) (ls : List (List Char)), ls.length = n → ls ≠ [] →
      joinNlCh ((List.range ((ls.length + m - 1) / m)).map
        (fun i => joinNlCh ((ls.drop (i * m)).take m))) = joinNlCh ls := by
  intro n
  induction n using Nat.strong_induction_on with
  | _ n ih =>
    intro ls hlen hne
    have hL : 0 < ls.length := List.length_pos.mpr hne
    by_cases hcase : ls.length ≤ m
    · have hk : (ls.length + m - 1) / m = 1 := by
        have h1 : 1 ≤ (ls.length + m - 1) / m := (Nat.one_le_div_iff hm).mpr (by omega)
        have h2 : (ls.length + m - 1) / m < 2 := (Nat.div_lt_iff_lt_mul hm).mpr (by omega)
        omega
      rw [hk]
      show joinNlCh [ joinNlCh ((ls.drop (0 * m)).take m) ] = joinNlCh ls
      rw [Nat.zero_mul, List.drop_zero, List.take_of_length_le hcase]
      rfl
    · push_neg at hcase
      have hkk : (ls.length + m - 1) / m = (ls.length - m + m - 1) / m + 1 := by
        have h1 : ls.length + m - 1 = (ls.length - m + m - 1) + m := by omega
        rw [h1, Nat.add_div_right _ hm]
      rw [hkk, List.range_succ_eq_map, List.map_cons, List.map_map]
      have hfun : ∀ i ∈ List.range ((ls.length - m + m - 1) / m),
          ((fun i => joinNlCh ((ls.drop (i * m)).take m)) ∘ Nat.succ) i =
            (fun i => joinNlCh (((ls.drop m).drop (i * m)).take m)) i := by
        intro i _
        show joinNlCh ((ls.drop (Nat.succ i * m)).take m) = _
        have hsm : Nat.succ i * m = m + i * m := by rw [Nat.succ_mul]; omega
        rw [hsm, ← List.drop_drop]
      rw [List.map_congr_left hfun]
      have hlen' : (ls.drop m).length = ls.length - m := List.length_drop m ls
      have hne' : ls.drop m ≠ [] := by
        intro hh
        rw [List.drop_eq_nil_iff] at hh
        omega
      have hrec := ih (ls.length - m) (by omega) (ls.drop m) (by omega) hne'
      rw [hlen'] at hrec
      have htail_ne : (List.range ((ls.length - m + m - 1) / m)).map
          (fun i => joinNlCh (((ls.drop m).drop (i * m)).take m)) ≠ [] := by
        have hk1 : 1 ≤ (ls.length - m + m - 1) / m := (Nat.one_le_div_iff hm).mpr (by omega)
        simp only [ne_eq, List.map_eq_nil_iff, List.range_eq_nil]
        omega
      rw [joinNlCh_cons _ _ htail_ne, hrec]
      have htake_ne : ls.take m ≠ [] := by
        simp only [ne_eq, List.take_eq_nil_iff]
        push_neg
        exact ⟨by omega, hne⟩
      rw [Nat.zero_mul, List.drop_zero, ← joinNlCh_append _ _ htake_ne hne',
        List.take_append_drop]

theorem drop_take_min (l : List String) (s mm : Nat) :
    (l.drop s).take (min (s + mm) l.length - s) = (l.drop s).take mm := by
  rw [List.take_eq_take]
  simp only [List.length_drop]
  omega

theorem jsSplitNl_ne_nil (s : String) : jsSplitNl s ≠ [] := by
  simp only [jsSplitNl, ne_eq, List.map_eq_nil_iff]
  exact splitLinesCh_ne_nil s.data

theorem jsJoinNl_jsSplitNl (s : String) : jsJoinNl (jsSplitNl s) = s := by
  show String.mk (joinNlCh (((splitLinesCh s.data).map String.mk).map String.data)) = s
  rw [List.map_map]
  have hid : ∀ l ∈ splitLinesCh s.data, (String.data ∘ String.mk) l = id l := fun l _ => rfl
  rw [List.map_congr_left hid, List.map_id, joinNlCh_splitLinesCh]

theorem jsJoinNl_chunks (m : Nat) (hm : 0 < m) (lines : List String) (hne : lines ≠ []) :
    jsJoinNl ((List.range ((lines.length + m - 1) / m)).map
      (fun i => jsJoinNl ((lines.drop (i * m)).take m))) = jsJoinNl lines := by
  have hne0 : lines.map String.data ≠ [] := by
    simp only [ne_eq, List.map_eq_nil_iff]
    exact hne
  show String.mk (joinNlCh (((List.range _).map _).map String.data)) = _
  rw [List.map_map]
  have hfun : ∀ i ∈ List.range ((lines.length + m - 1) / m),
      (String.data ∘ fun i => jsJoinNl ((lines.drop (i * m)).take m)) i =
        (fun i => joinNlCh (((lines.map String.data).drop (i * m)).take m)) i := by
    intro i _
    show joinNlCh (((lines.drop (i * m)).take m).map String.data) = _
    rw [List.map_take, List.map_drop]
  rw [List.map_congr_left hfun]
  have hrec := joinNlCh_chunks m hm (lines.map String.data).length (lines.map String.data)
    rfl hne0
  rw [List.length_map] at hrec
  exact congrArg String.mk hrec

theorem splitLogContent_else (m : Nat) (fileName content : String)
    (hgt : m < (jsSplitNl content).length) :
    splitLogContent m fileName content =
      (List.range (((jsSplitNl content).length + m - 1) / m)).map fun i =>
        ⟨fileName ++ "#chunk" ++ toString (i + 1) ++ "of" ++
            toString (((jsSplitNl content).length + m - 1) / m),
          jsJoinNl (((jsSplitNl content).drop (i * m)).take m)⟩ := by
  simp only [splitLogContent]
  rw [if_neg (by omega)]
  apply List.map_congr_left
  intro i _
  congr 2
  exact drop_take_min (jsSplitNl content) (i * m) m

/-- C4: splitLogContent with a positive line limit keeps a document within
the limit as one unchanged block under the document path, and above the limit
emits ceil(lines / limit) blocks named path#chunk{i}of{n}, each the join of a
contiguous slice of at most limit lines, whose joined contents reconstruct
the original text exactly. -/
theorem C4_segmenter (m : Nat) (hm : 0 < m) (fileName content : String) :
    ((jsSplitNl content).length ≤ m →
      splitLogContent m fileName content = [ ⟨fileName, content⟩ ]) ∧
    (m < (jsSplitNl content).length →
      (splitLogContent m fileName content).length =
        ((jsSplitNl content).length + m - 1) / m ∧
      (∀ i (hi : i < (splitLogContent m fileName content).length),
        (splitLogContent m fileName content).get ⟨i, hi⟩ =
          ⟨fileName ++ "#chunk" ++ toString (i + 1) ++ "of" ++
              toString ((splitLogContent m fileName content).length),
            jsJoinNl (((jsSplitNl content).drop (i * m)).take m)⟩ ∧
        (((jsSplitNl content).drop (i * m)).take m).length ≤ m) ∧
      jsJoinNl ((splitLogContent m fileName content).map Blob.content) = content) := by
  constructor
  · intro hle
    simp only [splitLogContent]
    rw [if_pos hle]
  · intro hgt
    have hlen : (splitLogContent m fileName content).length =
        ((jsSplitNl content).length + m - 1) / m := by
      rw [splitLogContent_else m fileName content hgt]
      simp
    refine ⟨hlen, ?_, ?_⟩
    · intro i hi
      constructor
      · rw [List.get_eq_getElem]
        simp only [splitLogContent_else m fileName content hgt, List.getElem_map,
          List.getElem_range, List.length_map, List.length_range]
      · have := List.length_take m ((jsSplitNl content).drop (i * m))
        omega
    · rw [splitLogContent_else m fileName content hgt, List.map_map]
      have hfun : ∀ i ∈ List.range (((jsSplitNl content).length + m - 1) / m),
          (Blob.content ∘ fun i =>
            (⟨fileName ++ "#chunk" ++ toString (i + 1) ++ "of" ++
                toString (((jsSplitNl content).length + m - 1) / m),
              jsJoinNl (((jsSplitNl content).drop (i * m)).take m)⟩ : Blob)) i =
            (fun i => jsJoinNl (((jsSplitNl content).drop (i * m)).take m)) i :=
        fun i _ => rfl
      rw [List.map_congr_left hfun,
        jsJoinNl_chunks m hm (jsSplitNl content) (jsSplitNl_ne_nil content),
        jsJoinNl_jsSplitNl]

theorem C4_segmenter_witness :
    (0 < 2 ∧ 2 < (jsSplitNl "a\nb\nc\nd\ne").length) ∧
    (((jsSplitNl "a\nb\nc\nd\ne").length ≤ 2 →
      splitLogContent 2 "f.md" "a\nb\nc\nd\ne" = [ ⟨"f.md", "a\nb\nc\nd\ne"⟩ ]) ∧
    (2 < (jsSplitNl "a\nb\nc\nd\ne").length →
      (splitLogContent 2 "f.md" "a\nb\nc\nd\ne").length =
        ((jsSplitNl "a\nb\nc\nd\ne").length + 2 - 1) / 2 ∧
      (∀ i (hi : i < (splitLogContent 2 "f.md" "a\nb\nc\nd\ne").length),
        (splitLogContent 2 "f.md" "a\nb\nc\nd\ne").get ⟨i, hi⟩ =
          ⟨"f.md" ++ "#chunk" ++ toString (i + 1) ++ "of" ++
              toString ((splitLogContent 2 "f.md" "a\nb\nc\nd\ne").length),
            jsJoinNl (((jsSplitNl "a\nb\nc\nd\ne").drop (i * 2)).take 2)⟩ ∧
        (((jsSplitNl "a\nb\nc\nd\ne").drop (i * 2)).take 2).length ≤ 2) ∧
      jsJoinNl ((splitLogContent 2 "f.md" "a\nb\nc\nd\ne").map Blob.content) =
        "a\nb\nc\nd\ne")) :=
  ⟨⟨by decide, by decide⟩, C4_segmenter 2 (by decide) "f.md" "a\nb\nc\nd\ne"⟩

/-! Upload client and search driver. -/

theorem uploadBatchesGo_fail (svc : AceRequest → Except JsError AceJson) :
    ∀ (batches : List (List Blob)) (acc : List String) (k : Nat) (hk : k < batches.length),
      (∀ j (hj : j < k), ∃ json names,
        svc (AceRequest.upload (batches.get ⟨j, hj.trans hk⟩)) = .ok json ∧
        json.blob_names = some names ∧ names ≠ []) →
      (∃ json, svc (AceRequest.upload (batches.get ⟨k, hk⟩)) = .ok json ∧
        (json.blob_names = none ∨ json.blob_names = some [])) →
      uploadBatchesGo svc batches acc =
        (.error protocolError, (batches.take (k + 1)).map AceRequest.upload) := by
  intro batches
  induction batches with
  | nil =>
    intro acc k hk
    exact absurd hk (by simp)
  | cons batch rest ih =>
    intro acc k hk hok hfail
    cases k with
    | zero =>
      obtain ⟨json, hsvc, hbn⟩ := hfail
      have hsvc2 : svc (AceRequest.upload batch) = .ok json := hsvc
      rcases hbn with hbn | hbn <;> simp [uploadBatchesGo, hsvc2, hbn]
    | succ k' =>
      obtain ⟨json, names, hsvc, hbn, hne⟩ := hok 0 (Nat.succ_pos k')
      have hsvc2 : svc (AceRequest.upload batch) = .ok json := hsvc
      have hk2 : k' < rest.length := by
        simpa using hk
      have hrec := ih (acc ++ names) k' hk2
        (fun j hj => hok (j + 1) (by omega))
        hfail
      simp only [uploadBatchesGo, hsvc2, hbn]
      rw [if_neg (by simpa using hne), hrec]
      simp [List.take_succ_cons]

/-- C6: when an upload batch request succeeds but the parsed blob_names field
is missing, not an array, or empty, the search fails with the protocol error
before any codebase lookup request is issued, the failing upload request is
issued exactly once (it is not retried at this layer), and no request in the
trace is a lookup request. -/
theorem C6_empty_blob_names (svc : AceRequest → Except JsError AceJson)
    (query : String) (blobs : List Blob) (k : Nat)
    (hb : blobs ≠ [])
    (hk : k < (buildBlobBatches blobs).length)
    (hok : ∀ j (hj : j < k), ∃ json names,
      svc (AceRequest.upload ((buildBlobBatches blobs).get ⟨j, hj.trans hk⟩)) = .ok json ∧
      json.blob_names = some names ∧ names ≠ [])
    (hfail : ∃ json,
      svc (AceRequest.upload ((buildBlobBatches blobs).get ⟨k, hk⟩)) = .ok json ∧
      (json.blob_names = none ∨ json.blob_names = some [])) :
    (searchLogsWithAce svc query blobs).outcome = .error protocolError ∧
    (searchLogsWithAce svc query blobs).trace =
      ((buildBlobBatches blobs).take (k + 1)).map AceRequest.upload ∧
    (∀ req ∈ (searchLogsWithAce svc query blobs).trace,
      ∃ batch, req = AceRequest.upload batch) := by
  have hup := uploadBatchesGo_fail svc (buildBlobBatches blobs) [] k hk hok hfail
  have hlen : ¬ blobs.length = 0 := fun h0 => hb (List.length_eq_zero.mp h0)
  refine ⟨?_, ?_, ?_⟩
  · simp [searchLogsWithAce, uploadBlobs, hlen, hup]
  · simp [searchLogsWithAce, uploadBlobs, hlen, hup]
  · intro req hm
    simp only [searchLogsWithAce, uploadBlobs, hlen, hup] at hm
    simp only [if_neg hlen, if_false] at hm
    obtain ⟨batch, _, hbatch⟩ := List.mem_map.mp hm
    exact ⟨batch, hbatch.symm⟩

theorem C6_empty_blob_names_witness :
    (([ blobW ] : List Blob) ≠ [] ∧ 0 < (buildBlobBatches [ blobW ]).length) ∧
    ((searchLogsWithAce svcEmptyNames "q" [ blobW ]).outcome = .error protocolError ∧
      (searchLogsWithAce svcEmptyNames "q" [ blobW ]).trace =
        ((buildBlobBatches [ blobW ]).take (0 + 1)).map AceRequest.upload ∧
      (∀ req ∈ (searchLogsWithAce svcEmptyNames "q" [ blobW ]).trace,
        ∃ batch, req = AceRequest.upload batch)) :=
  ⟨⟨by decide, by decide⟩,
    C6_empty_blob_names svcEmptyNames "q" [ blobW ] 0 (by decide) (by decide)
      (fun j hj => absurd hj (Nat.not_lt_zero j))
      ⟨⟨some [], none⟩, rfl, Or.inr rfl⟩⟩

/-- C7: an empty collected corpus short-circuits, with no upload and no
lookup request, returning the fixed nothing-to-search message; likewise
uploadBlobs on an empty blob list returns an empty pool without issuing any
request. -/
theorem C7_empty_corpus_no_network (svc : AceRequest → Except JsError AceJson)
    (query : String) :
    searchLogsWithAce svc query [] =
      ⟨.ok ⟨query, emptyDirMsg⟩, [], false⟩ ∧
    uploadBlobs svc [] = (.ok [], []) :=
  ⟨rfl, rfl⟩

theorem uploadBatchesGo_ok_ne_nil (svc : AceRequest → Except JsError AceJson) :
    ∀ (batches : List (List Blob)) (acc names : List String),
      (uploadBatchesGo svc batches acc).1 = .ok names →
      (acc ≠ [] ∨ batches ≠ []) → names ≠ [] := by
  intro batches
  induction batches with
  | nil =>
    intro acc names h hd
    have hacc : acc = names := Except.ok.inj h
    subst hacc
    rcases hd with hd | hd
    · exact hd
    · exact absurd rfl hd
  | cons batch rest ih =>
    intro acc names h hd
    simp only [uploadBatchesGo] at h
    rcases hsvc : svc (AceRequest.upload batch) with e | json
    · simp only [hsvc] at h
      exact Except.noConfusion h
    · simp only [hsvc] at h
      rcases hbn : json.blob_names with _ | names'
      · simp only [hbn] at h
        exact Except.noConfusion h
      · simp only [hbn] at h
        by_cases hlen : names'.length = 0
        · rw [if_pos hlen] at h
          exact Except.noConfusion h
        · rw [if_neg hlen] at h
          have hne' : names' ≠ [] := fun hh => hlen (by simp [hh])
          exact ih (acc ++ names') names h
            (Or.inl (fun hh => hne' (List.append_eq_nil.mp hh).2))

/-- C10: uploadBlobs called on a non-empty blob list that returns normally
yields a non-empty blob-name pool, hence the upload-failure fallback branch
of searchLogsWithAce never executes on any input. -/
theorem C10_upload_fallback_unreachable (svc : AceRequest → Except JsError AceJson) :
    (∀ (blobs : List Blob) (names : List String) (tr : List AceRequest),
      blobs ≠ [] → uploadBlobs svc blobs = (.ok names, tr) → names ≠ []) ∧
    (∀ (query : String) (blobs : List Blob),
      (searchLogsWithAce svc query blobs).usedUploadFailedFallback = false) := by
  have hmain : ∀ (blobs : List Blob) (names : List String),
      blobs ≠ [] → (uploadBlobs svc blobs).1 = .ok names → names ≠ [] := by
    intro blobs names hb h
    have hlen : ¬ blobs.length = 0 := fun h0 => hb (List.length_eq_zero.mp h0)
    rw [uploadBlobs, if_neg hlen] at h
    have hbne : buildBlobBatches blobs ≠ [] := by
      intro hh
      have hfl := buildBatchesGo_flatten ACE_MAX_BATCH_BYTES blobs [] 0
      rw [show buildBatchesGo ACE_MAX_BATCH_BYTES blobs [] 0 = buildBlobBatches blobs from rfl,
        hh] at hfl
      simp only [List.flatten_nil, List.nil_append] at hfl
      exact hb hfl.symm
    exact uploadBatchesGo_ok_ne_nil svc (buildBlobBatches blobs) [] names h (Or.inr hbne)
  refine ⟨fun blobs names tr hb h => hmain blobs names hb (by rw [h]), ?_⟩
  intro query blobs
  by_cases hb : blobs.length = 0
  · simp [searchLogsWithAce, hb]
  · simp only [searchLogsWithAce, if_neg hb]
    rcases hup : (uploadBlobs svc blobs).1 with e | names2
    · simp only [hup]
    · have hb' : blobs ≠ [] := fun hh => hb (by simp [hh])
      have hne := hmain blobs names2 hb' hup
      have hlen2 : ¬ names2.length = 0 := fun hh => hne (List.length_eq_zero.mp hh)
      simp only [hup, if_neg hlen2]
      rcases hsvc2 : svc (AceRequest.lookup query names2) with e2 | json2 <;>
        simp only [hsvc2]

/-! Session and request identifiers. -/

theorem fetchGo_logs (oracle : Nat → AttemptResult) (uuids : Nat → String) (sess : String) :
    ∀ (fuel attempt : Nat) (lastError : Option JsError) (st : IdState),
      (fetchGo oracle uuids sess fuel attempt lastError st).logs.map AttemptLog.requestId =
        (List.range' st.counter
          (fetchGo oracle uuids sess fuel attempt lastError st).attempts).map uuids ∧
      (fetchGo oracle uuids sess fuel attempt lastError st).logs.map AttemptLog.sessionId =
        List.replicate (fetchGo oracle uuids sess fuel attempt lastError st).attempts sess ∧
      (fetchGo oracle uuids sess fuel attempt lastError st).finalState =
        ⟨st.sessionId,
          st.counter + (fetchGo oracle uuids sess fuel attempt lastError st).attempts⟩ := by
  intro fuel
  induction fuel with
  | zero =>
    intro attempt lastError st
    exact ⟨rfl, rfl, rfl⟩
  | succ f ih =>
    intro attempt lastError st
    rcases ho : oracle attempt with r | e
    · simp only [fetchGo, ho]
      split_ifs with hok h1 h2
      · simp [List.range'_one]
      · obtain ⟨ih1, ih2, ih3⟩ := ih (attempt + 1) lastError ⟨st.sessionId, st.counter + 1⟩
        refine ⟨?_, ?_, ?_⟩
        · simp only [List.map_cons, ih1]
          simp [List.range'_succ]
        · simp only [List.map_cons, ih2]
          simp [List.replicate_succ]
        · dsimp only
          rw [ih3]
          dsimp only
          congr 1
          omega
      · obtain ⟨ih1, ih2, ih3⟩ := ih (attempt + 1) (some (httpErrorOf r))
          ⟨st.sessionId, st.counter + 1⟩
        refine ⟨?_, ?_, ?_⟩
        · simp only [List.map_cons, ih1]
          simp [List.range'_succ]
        · simp only [List.map_cons, ih2]
          simp [List.replicate_succ]
        · dsimp only
          rw [ih3]
          dsimp only
          congr 1
          omega
      · simp [List.range'_one]
    · simp only [fetchGo, ho]
      split_ifs with h2
      · obtain ⟨ih1, ih2, ih3⟩ := ih (attempt + 1) (some e) ⟨st.sessionId, st.counter + 1⟩
        refine ⟨?_, ?_, ?_⟩
        · simp only [List.map_cons, ih1]
          simp [List.range'_succ]
        · simp only [List.map_cons, ih2]
          simp [List.replicate_succ]
        · dsimp only
          rw [ih3]
          dsimp only
          congr 1
          omega
      · simp [List.range'_one]

theorem getAceSessionId_cached (uuids : Nat → String) (v : String) (c : Nat) (hv : v ≠ "") :
    getAceSessionId uuids ⟨some v, c⟩ = (v, ⟨some v, c⟩) := by
  simp [getAceSessionId, jsFalsy, hv]

theorem postAceJson_cached (oracle : Nat → AttemptResult) (uuids : Nat → String)
    (v : String) (c : Nat) (hv : v ≠ "") :
    postAceJson oracle uuids ⟨some v, c⟩ = fetchWithRetry oracle uuids v ⟨some v, c⟩ := by
  simp [postAceJson, getAceSessionId_cached uuids v c hv]

theorem runCalls_ids (uuids : Nat → String) (v : String) (hv : v ≠ "") :
    ∀ (oracles : List (Nat → AttemptResult)) (c : Nat),
      (∀ fr ∈ runCalls uuids oracles ⟨some v, c⟩, ∀ lg ∈ fr.logs, lg.sessionId = v) ∧
      ((runCalls uuids oracles ⟨some v, c⟩).map
          (fun fr => fr.logs.map AttemptLog.requestId)).flatten =
        (List.range' c (((runCalls uuids oracles ⟨some v, c⟩).map
          FetchResult.attempts).sum)).map uuids := by
  intro oracles
  induction oracles with
  | nil =>
    intro c
    exact ⟨fun fr hm => absurd hm (by simp [runCalls]), by simp [runCalls]⟩
  | cons oracle rest ih =>
    intro c
    have hpost : postAceJson oracle uuids ⟨some v, c⟩ =
        fetchWithRetry oracle uuids v ⟨some v, c⟩ :=
      postAceJson_cached oracle uuids v c hv
    obtain ⟨f1, f2, f3⟩ := fetchGo_logs oracle uuids v ACE_RETRY_LIMIT 0 none ⟨some v, c⟩
    have f1w : (fetchWithRetry oracle uuids v ⟨some v, c⟩).logs.map AttemptLog.requestId =
        (List.range' c (fetchWithRetry oracle uuids v ⟨some v, c⟩).attempts).map uuids := f1
    have f2w : (fetchWithRetry oracle uuids v ⟨some v, c⟩).logs.map AttemptLog.sessionId =
        List.replicate (fetchWithRetry oracle uuids v ⟨some v, c⟩).attempts v := f2
    have f3w : (fetchWithRetry oracle uuids v ⟨some v, c⟩).finalState =
        ⟨some v, c + (fetchWithRetry oracle uuids v ⟨some v, c⟩).attempts⟩ := f3
    have hrun : runCalls uuids (oracle :: rest) ⟨some v, c⟩ =
        fetchWithRetry oracle uuids v ⟨some v, c⟩ ::
          runCalls uuids rest ⟨some v,
            c + (fetchWithRetry oracle uuids v ⟨some v, c⟩).attempts⟩ := by
      simp only [runCalls, hpost, f3w]
    obtain ⟨ihs, ihr⟩ := ih (c + (fetchWithRetry oracle uuids v ⟨some v, c⟩).attempts)
    constructor
    · intro fr hm lg hlg
      rw [hrun] at hm
      rcases List.mem_cons.mp hm with hm | hm
      · rw [hm] at hlg
        have hmem := List.mem_map_of_mem AttemptLog.sessionId hlg
        rw [f2w] at hmem
        exact List.eq_of_mem_replicate hmem
      · exact ihs fr hm lg hlg
    · rw [hrun]
      simp only [List.map_cons, List.flatten_cons, List.sum_cons, f1w, ihr]
      rw [← List.map_append, List.range'_append_1]
      congr 2
      omega

theorem runCalls_ids0 (uuids : Nat → String) (h0 : uuids 0 ≠ "")
    (oracles : List (Nat → AttemptResult)) :
    (∀ fr ∈ runCalls uuids oracles idState0, ∀ lg ∈ fr.logs, lg.sessionId = uuids 0) ∧
    ((runCalls uuids oracles idState0).map
        (fun fr => fr.logs.map AttemptLog.requestId)).flatten =
      (List.range' 1 (((runCalls uuids oracles idState0).map
        FetchResult.attempts).sum)).map uuids := by
  cases oracles with
  | nil => exact ⟨fun fr hm => absurd hm (by simp [runCalls]), by simp [runCalls]⟩
  | cons oracle rest =>
    have hpost0 : postAceJson oracle uuids idState0 =
        fetchWithRetry oracle uuids (uuids 0) ⟨some (uuids 0), 1⟩ := rfl
    obtain ⟨f1, f2, f3⟩ := fetchGo_logs oracle uuids (uuids 0) ACE_RETRY_LIMIT 0 none
      ⟨some (uuids 0), 1⟩
    have f1w : (fetchWithRetry oracle uuids (uuids 0) ⟨some (uuids 0), 1⟩).logs.map
          AttemptLog.requestId =
        (List.range' 1 (fetchWithRetry oracle uuids (uuids 0)
          ⟨some (uuids 0), 1⟩).attempts).map uuids := f1
    have f2w : (fetchWithRetry oracle uuids (uuids 0) ⟨some (uuids 0), 1⟩).logs.map
          AttemptLog.sessionId =
        List.replicate (fetchWithRetry oracle uuids (uuids 0)
          ⟨some (uuids 0), 1⟩).attempts (uuids 0) := f2
    have f3w : (fetchWithRetry oracle uuids (uuids 0) ⟨some (uuids 0), 1⟩).finalState =
        ⟨some (uuids 0),
          1 + (fetchWithRetry oracle uuids (uuids 0) ⟨some (uuids 0), 1⟩).attempts⟩ := f3
    have hrun : runCalls uuids (oracle :: rest) idState0 =
        fetchWithRetry oracle uuids (uuids 0) ⟨some (uuids 0), 1⟩ ::
          runCalls uuids rest ⟨some (uuids 0),
            1 + (fetchWithRetry oracle uuids (uuids 0) ⟨some (uuids 0), 1⟩).attempts⟩ := by
      simp only [runCalls, hpost0, f3w]
    obtain ⟨ihs, ihr⟩ := runCalls_ids uuids (uuids 0) h0 rest
      (1 + (fetchWithRetry oracle uuids (uuids 0) ⟨some (uuids 0), 1⟩).attempts)
    constructor
    · intro fr hm lg hlg
      rw [hrun] at hm
      rcases List.mem_cons.mp hm with hm | hm
      · rw [hm] at hlg
        have hmem := List.mem_map_of_mem AttemptLog.sessionId hlg
        rw [f2w] at hmem
        exact List.eq_of_mem_replicate hmem
      · exact ihs fr hm lg hlg
    · rw [hrun]
      simp only [List.map_cons, List.flatten_cons, List.sum_cons, f1w, ihr]
      rw [← List.map_append, List.range'_append_1]
      congr 2
      omega

/-- C9: starting from a fresh process state, the session identifier is drawn
once (the first uuid) and attached to every attempt of every logical call,
while every individual attempt carries a fresh request identifier: the
request identifiers across all calls are the successive uuids after the
session one, hence pairwise distinct and distinct from the session
identifier whenever the uuid stream is injective. -/
theorem C9_ids (uuids : Nat → String) (h0 : uuids 0 ≠ "")
    (hinj : Function.Injective uuids) (oracles : List (Nat → AttemptResult)) :
    (∀ fr ∈ runCalls uuids oracles idState0, ∀ lg ∈ fr.logs, lg.sessionId = uuids 0) ∧
    ((runCalls uuids oracles idState0).map
        (fun fr => fr.logs.map AttemptLog.requestId)).flatten =
      (List.range' 1 (((runCalls uuids oracles idState0).map
        FetchResult.attempts).sum)).map uuids ∧
    (((runCalls uuids oracles idState0).map
        (fun fr => fr.logs.map AttemptLog.requestId)).flatten).Nodup ∧
    (∀ rid ∈ ((runCalls uuids oracles idState0).map
        (fun fr => fr.logs.map AttemptLog.requestId)).flatten, rid ≠ uuids 0) := by
  obtain ⟨hsess, hreq⟩ := runCalls_ids0 uuids h0 oracles
  refine ⟨hsess, hreq, ?_, ?_⟩
  · rw [hreq]
    exact (List.nodup_range' 1 _).map hinj
  · intro rid hm
    rw [hreq] at hm
    obtain ⟨i, hi, hrid⟩ := List.mem_map.mp hm
    rw [List.mem_range'_1] at hi
    intro hcontra
    have : i = 0 := hinj (hrid.trans hcontra)
    omega

theorem uuidsW_injective : Function.Injective uuidsW := by
  intro a b h
  have hlen := congrArg (fun s => s.data.length) h
  simpa [uuidsW] using hlen

theorem C9_ids_witness :
    (uuidsW 0 ≠ "" ∧ Function.Injective uuidsW) ∧
    ((∀ fr ∈ runCalls uuidsW [ oracle500, oracleOk ] idState0, ∀ lg ∈ fr.logs,
        lg.sessionId = uuidsW 0) ∧
      ((runCalls uuidsW [ oracle500, oracleOk ] idState0).map
          (fun fr => fr.logs.map AttemptLog.requestId)).flatten =
        (List.range' 1 (((runCalls uuidsW [ oracle500, oracleOk ] idState0).map
          FetchResult.attempts).sum)).map uuidsW ∧
      (((runCalls uuidsW [ oracle500, oracleOk ] idState0).map
          (fun fr => fr.logs.map AttemptLog.requestId)).flatten).Nodup ∧
      (∀ rid ∈ ((runCalls uuidsW [ oracle500, oracleOk ] idState0).map
          (fun fr => fr.logs.map AttemptLog.requestId)).flatten, rid ≠ uuidsW 0)) :=
  ⟨⟨by decide, uuidsW_injective⟩,
    C9_ids uuidsW (by decide) uuidsW_injective [ oracle500, oracleOk ]⟩

theorem C10_upload_fallback_unreachable_witness :
    (([ blobW ] : List Blob) ≠ [] ∧
      uploadBlobs svcOneName [ blobW ] =
        (.ok [ "blobA" ], [ AceRequest.upload [ blobW ] ]) ∧
      ([ "blobA" ] : List String) ≠ []) ∧
    (searchLogsWithAce svcOneName "q" [ blobW ]).usedUploadFailedFallback = false :=
  ⟨⟨by decide, by decide,
      (C10_upload_fallback_unreachable svcOneName).1 [ blobW ] [ "blobA" ]
        [ AceRequest.upload [ blobW ] ] (by decide) (by decide)⟩,
    (C10_upload_fallback_unreachable svcOneName).2 "q" [ blobW ]⟩

end AgentLogs
